import Mathlib

/-!
Shallow embedding of the routing engine and terrain model of the
pathfinding tool (`src/js/engine/Pathfinder.js`, `src/js/models/Terrain.js`,
and the Bézier helpers re-exported through `src/js/app.js`).

Numbers are modelled by `ℚ`.  `Math.sqrt` is not exactly representable on
rationals, so every definition that needs it takes an explicit square-root
function `sqrtF : ℚ → ℚ` as a parameter; all theorems hold for every such
function, and concrete witnesses instantiate it with `Rat.sqrt`, which agrees
with the exact square root on perfect squares.

JavaScript `Map`s are modelled as insertion-ordered association lists
(`mget` / `mset`), matching `Map.get` / `Map.set` semantics: `set` updates an
existing key in place and appends a fresh key at the end.
-/

set_option linter.unusedVariables false
set_option maxRecDepth 10000

/-- `Map.get` on an insertion-ordered association list. -/
def mget {α : Type} : List (String × α) → String → Option α
  | [], _ => none
  | (k, v) :: rest, key => if k = key then some v else mget rest key

/-- `Map.set` on an insertion-ordered association list: update in place if the
key exists, otherwise append at the end. -/
def mset {α : Type} : List (String × α) → String → α → List (String × α)
  | [], key, v => [(key, v)]
  | (k, w) :: rest, key, v =>
    if k = key then (key, v) :: rest else (k, w) :: mset rest key v

/-- A 2‑D point with rational coordinates. -/
structure Point where
  x : ℚ
  y : ℚ
deriving DecidableEq, Repr

/-- `cubicBezierPoint` from the Bézier utilities: Bernstein-basis evaluation of
a cubic Bézier curve at parameter `t`. -/
def cubicBezierPoint (p0 p1 p2 p3 : Point) (t : ℚ) : Point :=
  let t2 := t * t
  let t3 := t2 * t
  let mt := 1 - t
  let mt2 := mt * mt
  let mt3 := mt2 * mt
  { x := mt3 * p0.x + 3 * mt2 * t * p1.x + 3 * mt * t2 * p2.x + t3 * p3.x,
    y := mt3 * p0.y + 3 * mt2 * t * p1.y + 3 * mt * t2 * p2.y + t3 * p3.y }

/-- `getBezierLength` from the Bézier utilities: approximate arc length as a
polyline sum over `segments` uniform parameter steps (the source default and
the only call sites use 50). -/
def getBezierLength (sqrtF : ℚ → ℚ) (p0 p1 p2 p3 : Point) (segments : ℕ) : ℚ :=
  (((List.range segments).map (fun i => i + 1)).foldl
    (fun (acc : ℚ × Point) (i : ℕ) =>
      let t : ℚ := (i : ℚ) / (segments : ℚ)
      let point := cubicBezierPoint p0 p1 p2 p3 t
      let dx := point.x - acc.2.x
      let dy := point.y - acc.2.y
      (acc.1 + sqrtF (dx * dx + dy * dy), point))
    (0, p0)).1

/-- A waypoint record `{id, x, y}`. -/
structure WaypointData where
  id : String
  x : ℚ
  y : ℚ
deriving DecidableEq, Repr

/-- An edge record `{id, from, to, cost, bidirectional, type, controlPoints}`.
`bidirectional` is `Option Bool` because the JS flag may be absent
(`undefined`), and the engine tests `edge.bidirectional !== false`.
`from` / `to` are spelled `fromId` / `toId` (`from` is a Lean keyword). -/
structure EdgeData where
  id : String
  fromId : String
  toId : String
  cost : ℚ
  bidirectional : Option Bool
  type : String
  controlPoints : List Point
deriving DecidableEq, Repr

/-- One adjacency entry `{cost, edgeId}` of a `GraphNode`. -/
structure Neighbor where
  cost : ℚ
  edgeId : String
deriving DecidableEq, Repr

/-- A graph node `{id, neighbors}`; `neighbors` is a JS `Map`. -/
structure GraphNode where
  id : String
  neighbors : List (String × Neighbor)
deriving DecidableEq, Repr

/-- The graph `Map<string, GraphNode>` built by `Pathfinder.buildGraph`. -/
abbrev Graph := List (String × GraphNode)

/-- The waypoint lookup `new Map(waypoints.map(wp => [wp.id, wp]))`. -/
def waypointMapOf (waypoints : List WaypointData) : List (String × WaypointData) :=
  waypoints.foldl (fun m wp => mset m wp.id wp) []

/-- The edge-cost computation inlined in `buildGraph`: the stored cost, scaled
for a curved edge by Bézier arc length over straight-line distance, with the
straight length guarded against zero (`straightLength || 1`). -/
def effectiveEdgeCost (sqrtF : ℚ → ℚ) (waypointMap : List (String × WaypointData))
    (edge : EdgeData) : ℚ :=
  if edge.type = "bezier" ∧ 2 ≤ edge.controlPoints.length then
    match mget waypointMap edge.fromId, mget waypointMap edge.toId, edge.controlPoints with
    | some fromWp, some toWp, c0 :: c1 :: _ =>
      let bezierLength :=
        getBezierLength sqrtF ⟨fromWp.x, fromWp.y⟩ c0 c1 ⟨toWp.x, toWp.y⟩ 50
      let straightLength :=
        sqrtF ((toWp.x - fromWp.x) ^ 2 + (toWp.y - fromWp.y) ^ 2)
      let lenScale := bezierLength / (if straightLength = 0 then 1 else straightLength)
      edge.cost * lenScale
    | _, _, _ => edge.cost
  else edge.cost

/-- Processing of one edge inside `buildGraph`: skip unresolvable endpoints,
add the forward adjacency entry, and the reverse entry unless the edge is
explicitly marked `bidirectional: false`.  The `toNode` used for the reverse
entry is re-read from the updated graph, matching the JS object aliasing when
`from = to`. -/
def addEdgeToGraph (sqrtF : ℚ → ℚ) (waypointMap : List (String × WaypointData))
    (g : Graph) (edge : EdgeData) : Graph :=
  match mget g edge.fromId, mget g edge.toId with
  | some fromNode, some _ =>
    let edgeCost := effectiveEdgeCost sqrtF waypointMap edge
    let g1 := mset g edge.fromId
      { fromNode with neighbors := mset fromNode.neighbors edge.toId ⟨edgeCost, edge.id⟩ }
    if edge.bidirectional ≠ some false then
      match mget g1 edge.toId with
      | some toNode =>
        mset g1 edge.toId
          { toNode with neighbors := mset toNode.neighbors edge.fromId ⟨edgeCost, edge.id⟩ }
      | none => g1
    else g1
  | _, _ => g

/-- `Pathfinder.buildGraph`: create a node per waypoint, then fold the edges. -/
def buildGraph (sqrtF : ℚ → ℚ) (waypoints : List WaypointData)
    (edges : List EdgeData) : Graph :=
  let g0 : Graph := waypoints.foldl (fun g wp => mset g wp.id ⟨wp.id, []⟩) []
  edges.foldl (addEdgeToGraph sqrtF (waypointMapOf waypoints)) g0

/-- A `{path, cost, edges}` result record of the engine. -/
structure PathResult where
  path : List String
  cost : ℚ
  edges : List String
deriving DecidableEq, Repr

/-- An entry `{id, cost}` of the Dijkstra priority queue. -/
structure QueueEntry where
  id : String
  cost : ℚ
deriving DecidableEq, Repr

/-- Stable insertion of a queue entry, placing it before the first entry of
strictly larger cost and after earlier entries of equal cost. -/
def insertByCost (x : QueueEntry) : List QueueEntry → List QueueEntry
  | [] => [x]
  | y :: ys => if x.cost ≤ y.cost then x :: y :: ys else y :: insertByCost x ys

/-- `queue.sort((a, b) => a.cost - b.cost)`.  JS `Array.prototype.sort` is
stable, and a stable sort under a fixed comparator is unique, so the stable
insertion sort below is extensionally the JS sort. -/
def sortByCost : List QueueEntry → List QueueEntry
  | [] => []
  | x :: xs => insertByCost x (sortByCost xs)

/-- The mutable locals of one `dijkstra` call. -/
structure SearchState where
  queue : List QueueEntry
  costs : List (String × ℚ)
  previous : List (String × String)
  previousEdge : List (String × String)
  visited : List String
deriving Repr

/-- The body of `node.neighbors.forEach(...)` in `dijkstra`: skip excluded
edges, excluded nodes (start and end always allowed) and visited nodes, then
relax the tentative cost and push an improved entry. -/
def relaxStep (excludedEdges excludedNodes : List String) (startId endId : String)
    (current : QueueEntry) (st : SearchState) (entry : String × Neighbor) : SearchState :=
  let neighborId := entry.1
  let neighbor := entry.2
  if excludedEdges.contains neighbor.edgeId then st
  else if neighborId ≠ startId ∧ neighborId ≠ endId ∧ excludedNodes.contains neighborId then st
  else if st.visited.contains neighborId then st
  else
    let newCost := current.cost + neighbor.cost
    let improved : Bool :=
      match mget st.costs neighborId with
      | none => true
      | some existingCost => decide (newCost < existingCost)
    if improved then
      { st with
        costs := mset st.costs neighborId newCost,
        previous := mset st.previous neighborId current.id,
        previousEdge := mset st.previousEdge neighborId neighbor.edgeId,
        queue := st.queue ++ [⟨neighborId, newCost⟩] }
    else st

/-- The `while (current !== undefined)` loop of `reconstructPath`, with fuel.
Returns the node list and edge list accumulated by the `unshift` calls.  The
fuel (one more than the size of the `previous` map) always suffices because
the parent chain visits distinct keys of `previous`. -/
def reconstructCore (previous previousEdge : List (String × String)) :
    ℕ → String → List String × List String
  | 0, _ => ([], [])
  | fuel + 1, current =>
    let rest :=
      match mget previous current with
      | some parent => reconstructCore previous previousEdge fuel parent
      | none => ([], [])
    let edges :=
      match mget previousEdge current with
      | some e => if e = "" then rest.2 else rest.2 ++ [e]
      | none => rest.2
    (rest.1 ++ [current], edges)

/-- `Pathfinder.reconstructPath`. -/
def reconstructPath (previous previousEdge : List (String × String))
    (startId endId : String) (totalCost : ℚ) : PathResult :=
  let pe := reconstructCore previous previousEdge (previous.length + 1) endId
  { path := pe.1, cost := totalCost, edges := pe.2 }

/-- The `while (queue.length > 0)` loop of `dijkstra`, with fuel: sort, shift
the cheapest entry, skip visited ones, return on reaching the target, else
relax all neighbors. -/
def dijkstraLoop (graph : Graph) (startId endId : String)
    (excludedEdges excludedNodes : List String) :
    ℕ → SearchState → Option PathResult
  | 0, _ => none
  | fuel + 1, st =>
    match h : sortByCost st.queue with
    | [] => none
    | current :: rest =>
      if st.visited.contains current.id then
        dijkstraLoop graph startId endId excludedEdges excludedNodes fuel
          { st with queue := rest }
      else
        let visited1 := st.visited ++ [current.id]
        if current.id = endId then
          some (reconstructPath st.previous st.previousEdge startId endId
            ((mget st.costs endId).getD 0))
        else
          match mget graph current.id with
          | none =>
            dijkstraLoop graph startId endId excludedEdges excludedNodes fuel
              { st with queue := rest, visited := visited1 }
          | some node =>
            dijkstraLoop graph startId endId excludedEdges excludedNodes fuel
              (node.neighbors.foldl
                (relaxStep excludedEdges excludedNodes startId endId current)
                { st with queue := rest, visited := visited1 })

/-- A fuel bound for the Dijkstra loop.  Each loop iteration consumes one
queue entry; entries are the initial one plus pushes, and a node's neighbor
list is pushed at most once (the node is then visited), so the total number of
iterations is at most the total number of adjacency entries plus two. -/
def graphFuel (graph : Graph) : ℕ :=
  graph.foldl (fun acc kv => acc + kv.2.neighbors.length) 0 + 2

/-- `Pathfinder.dijkstra`. -/
def dijkstra (graph : Graph) (startId endId : String)
    (excludedEdges excludedNodes : List String) : Option PathResult :=
  dijkstraLoop graph startId endId excludedEdges excludedNodes (graphFuel graph)
    { queue := [⟨startId, 0⟩], costs := [(startId, 0)],
      previous := [], previousEdge := [], visited := [] }

/-- `Pathfinder.pathStartsWith(path, prefix)`. -/
def pathStartsWith : List String → List String → Bool
  | _, [] => true
  | [], _ :: _ => false
  | a :: path, b :: pref => if a = b then pathStartsWith path pref else false

/-- `Pathfinder.calculatePathCost`: sum the adjacency costs of consecutive
pairs, contributing nothing for a missing node or entry. -/
def calculatePathCost (graph : Graph) : List String → ℚ
  | a :: b :: rest =>
    (match mget graph a with
     | some node =>
       match mget node.neighbors b with
       | some nb => nb.cost
       | none => 0
     | none => 0) + calculatePathCost graph (b :: rest)
  | _ => 0

/-- `Pathfinder.getPathEdges`: the edge ids of consecutive pairs, skipping
missing nodes or entries. -/
def getPathEdges (graph : Graph) : List String → List String
  | a :: b :: rest =>
    (match mget graph a with
     | some node =>
       match mget node.neighbors b with
       | some nb => [nb.edgeId]
       | none => []
     | none => []) ++ getPathEdges graph (b :: rest)
  | _ => []

/-- `path.join(',')`, the deduplication key of Yen's algorithm. -/
def joinPath (p : List String) : String :=
  String.intercalate "," p

/-- The body of the spur loop (`for j`) of `findKShortestPaths`, folded over
the accumulating candidate list `potentialPaths`: build root path and
exclusions, run the spur search, splice, and push unless duplicate. -/
def kShortestIter (graph : Graph) (startId endId : String)
    (paths : List PathResult) (lastPath : PathResult)
    (potentialPaths : List PathResult) : List PathResult :=
  (List.range (lastPath.path.length - 1)).foldl
    (fun pot j =>
      let spurNode := lastPath.path.getD j ""
      let rootPath := lastPath.path.take (j + 1)
      let excludedEdges := paths.foldl
        (fun acc p =>
          if pathStartsWith p.path rootPath then
            match p.path.get? rootPath.length with
            | some nextNode =>
              match mget graph spurNode with
              | some node =>
                match mget node.neighbors nextNode with
                | some edge => acc ++ [edge.edgeId]
                | none => acc
              | none => acc
            | none => acc
          else acc)
        ([] : List String)
      let excludedNodes := rootPath.dropLast
      match dijkstra graph spurNode endId excludedEdges excludedNodes with
      | some spurPath =>
        let totalPath : PathResult :=
          { path := rootPath.dropLast ++ spurPath.path,
            cost := calculatePathCost graph rootPath.dropLast + spurPath.cost,
            edges := getPathEdges graph rootPath ++ spurPath.edges }
        let pathKey := joinPath totalPath.path
        let isDuplicate :=
          pot.any (fun p => joinPath p.path = pathKey) ||
            paths.any (fun p => joinPath p.path = pathKey)
        if isDuplicate then pot else pot ++ [totalPath]
      | none => pot)
    potentialPaths

/-- Stable insertion of a path result by cost (`potentialPaths.sort`). -/
def insertPathByCost (x : PathResult) : List PathResult → List PathResult
  | [] => [x]
  | y :: ys => if x.cost ≤ y.cost then x :: y :: ys else y :: insertPathByCost x ys

/-- `potentialPaths.sort((a, b) => a.cost - b.cost)` as a stable sort. -/
def sortPathsByCost : List PathResult → List PathResult
  | [] => []
  | x :: xs => insertPathByCost x (sortPathsByCost xs)

/-- The `for (let i = 1; i < k; i++)` loop of `findKShortestPaths`: generate
candidates from the last accepted path, stop early when none remain, else
accept the cheapest candidate. -/
def kShortestLoop (graph : Graph) (startId endId : String) :
    ℕ → List PathResult → List PathResult → List PathResult
  | 0, paths, _ => paths
  | iters + 1, paths, potentialPaths =>
    match paths.getLast? with
    | none => paths
    | some lastPath =>
      match sortPathsByCost (kShortestIter graph startId endId paths lastPath potentialPaths) with
      | [] => paths
      | best :: restPot =>
        kShortestLoop graph startId endId iters (paths ++ [best]) restPot

/-- `Pathfinder.findKShortestPaths`, returning the `paths` array. -/
def findKShortestPaths (graph : Graph) (startId endId : String) (k : ℕ) :
    List PathResult :=
  match dijkstra graph startId endId [] [] with
  | none => []
  | some firstPath => kShortestLoop graph startId endId (k - 1) [firstPath] []

/-- JS `Math.round` (half toward positive infinity). -/
def jsRound (q : ℚ) : ℤ :=
  ⌊q + 1 / 2⌋

/-- A terrain type record `{id, name, cost, color}`. -/
structure TerrainType where
  id : String
  name : String
  cost : ℚ
  color : String
deriving DecidableEq, Repr

/-- A terrain layer `{gridWidth, gridHeight, grid, types}`; a grid cell holds
`none` for unpainted (`null`) cells. -/
structure TerrainLayer where
  gridWidth : ℤ
  gridHeight : ℤ
  grid : List (Option String)
  types : List TerrainType
deriving DecidableEq, Repr

/-- `getTerrainAt`: `null` outside the grid bounds, else the row-major cell
(an out-of-range array read, `undefined`, is also modelled as `none`). -/
def getTerrainAt (terrain : TerrainLayer) (cellX cellY : ℤ) : Option String :=
  if cellX < 0 ∨ terrain.gridWidth ≤ cellX ∨ cellY < 0 ∨ terrain.gridHeight ≤ cellY then
    none
  else
    terrain.grid.getD (cellY * terrain.gridWidth + cellX).toNat none

/-- The values taken by a JS counter `for (let d = -radius; d <= radius; d++)`. -/
def loopOffsets (radius : ℚ) : List ℚ :=
  if 0 ≤ radius then
    (List.range (⌊2 * radius⌋.toNat + 1)).map (fun k : ℕ => -radius + (k : ℚ))
  else []

/-- `paintTerrain`: set every cell whose offset from the brush center lies in
the Euclidean disc of the given radius, guarded to the grid bounds; the input
layer is returned with only `grid` replaced (functional update).  The
assignment `newGrid[index] = typeId` is modelled by `List.set`, which matches
the JS write whenever `grid.length = gridWidth * gridHeight`. -/
def paintTerrain (terrain : TerrainLayer) (centerX centerY radius : ℚ)
    (typeId : Option String) : TerrainLayer :=
  let radiusSq := radius * radius
  let offs := loopOffsets radius
  offs.foldl
    (fun t1 dy =>
      offs.foldl
        (fun t2 dx =>
          if dx * dx + dy * dy ≤ radiusSq then
            let cellX := jsRound (centerX + dx)
            let cellY := jsRound (centerY + dy)
            if 0 ≤ cellX ∧ cellX < t2.gridWidth ∧ 0 ≤ cellY ∧ cellY < t2.gridHeight then
              { t2 with grid := t2.grid.set (cellY * t2.gridWidth + cellX).toNat typeId }
            else t2
          else t2)
        t1)
    terrain

/-- `imageToGrid`: proportional scaling with `Math.floor`, clamped. -/
def imageToGrid (imageX imageY imageWidth imageHeight : ℚ)
    (terrain : TerrainLayer) : ℤ × ℤ :=
  let cellX := ⌊imageX / imageWidth * (terrain.gridWidth : ℚ)⌋
  let cellY := ⌊imageY / imageHeight * (terrain.gridHeight : ℚ)⌋
  (max 0 (min (terrain.gridWidth - 1) cellX),
   max 0 (min (terrain.gridHeight - 1) cellY))

/-- `getTerrainType`: first type definition with the given id, else `null`. -/
def getTerrainType (terrain : TerrainLayer) (typeId : String) : Option TerrainType :=
  terrain.types.find? (fun t => t.id == typeId)

/-- `getTerrainCostAt`: multiplier of the cell under an image coordinate;
unpainted (or falsy) cell or unknown type yields 1. -/
def getTerrainCostAt (terrain : TerrainLayer)
    (imageX imageY imageWidth imageHeight : ℚ) : ℚ :=
  let cell := imageToGrid imageX imageY imageWidth imageHeight terrain
  match getTerrainAt terrain cell.1 cell.2 with
  | none => 1
  | some typeId =>
    if typeId = "" then 1
    else
      match getTerrainType terrain typeId with
      | some ty => ty.cost
      | none => 1

/-- The per-segment sum inside `calculatePathTerrainCost`: segment pixel
length times the terrain multiplier sampled at the segment midpoint. -/
def pathCostCore (sqrtF : ℚ → ℚ) (terrain : TerrainLayer)
    (imageWidth imageHeight : ℚ) : List Point → ℚ
  | p1 :: p2 :: rest =>
    sqrtF ((p2.x - p1.x) ^ 2 + (p2.y - p1.y) ^ 2) *
        getTerrainCostAt terrain ((p1.x + p2.x) / 2) ((p1.y + p2.y) / 2)
          imageWidth imageHeight +
      pathCostCore sqrtF terrain imageWidth imageHeight (p2 :: rest)
  | _ => 0

/-- `calculatePathTerrainCost`: weighted midpoint sampling along a polyline,
normalized by 100 px per cost unit. -/
def calculatePathTerrainCost (sqrtF : ℚ → ℚ) (terrain : TerrainLayer)
    (points : List Point) (imageWidth imageHeight : ℚ) : ℚ :=
  if points.length < 2 then 0
  else pathCostCore sqrtF terrain imageWidth imageHeight points / 100

/-- `sampleLine`: `numSamples + 1` uniform points on a segment. -/
def sampleLine (x1 y1 x2 y2 : ℚ) (numSamples : ℕ) : List Point :=
  (List.range (numSamples + 1)).map
    (fun i =>
      let t : ℚ := (i : ℚ) / (numSamples : ℚ)
      { x := x1 + (x2 - x1) * t, y := y1 + (y2 - y1) * t })

/-- `sampleBezier`: `numSamples + 1` uniform-parameter points on a cubic
Bézier curve (Bernstein formula duplicated in `Terrain.js`). -/
def sampleBezier (p0 p1 p2 p3 : Point) (numSamples : ℕ) : List Point :=
  (List.range (numSamples + 1)).map
    (fun i =>
      let t : ℚ := (i : ℚ) / (numSamples : ℚ)
      let mt := 1 - t
      let mt2 := mt * mt
      let mt3 := mt2 * mt
      let t2 := t * t
      let t3 := t2 * t
      { x := mt3 * p0.x + 3 * mt2 * t * p1.x + 3 * mt * t2 * p2.x + t3 * p3.x,
        y := mt3 * p0.y + 3 * mt2 * t * p1.y + 3 * mt * t2 * p2.y + t3 * p3.y })

/-- `calculateEdgeTerrainCost`: distance-based fallback without terrain, else
terrain cost of the sampled shape (30 Bézier samples, 20 line samples), in
both cases rounded to one decimal via `Math.round(v * 10) / 10`. -/
def calculateEdgeTerrainCost (sqrtF : ℚ → ℚ) (edge : EdgeData)
    (fromWp toWp : WaypointData) (terrain : Option TerrainLayer)
    (imageWidth imageHeight : ℚ) : ℚ :=
  match terrain with
  | none =>
    let dist := sqrtF ((toWp.x - fromWp.x) ^ 2 + (toWp.y - fromWp.y) ^ 2)
    (jsRound (dist / 100 * 10) : ℚ) / 10
  | some terr =>
    let points :=
      if edge.type = "bezier" ∧ 2 ≤ edge.controlPoints.length then
        match edge.controlPoints with
        | c0 :: c1 :: _ =>
          sampleBezier ⟨fromWp.x, fromWp.y⟩ c0 c1 ⟨toWp.x, toWp.y⟩ 30
        | _ => sampleLine fromWp.x fromWp.y toWp.x toWp.y 20
      else sampleLine fromWp.x fromWp.y toWp.x toWp.y 20
    let cost := calculatePathTerrainCost sqrtF terr points imageWidth imageHeight
    (jsRound (cost * 10) : ℚ) / 10

/-- The node-exclusion check of `dijkstra` lets a neighbor through exactly
when it is the start, the end, or not excluded. -/
def nodeAllowed (startId endId : String) (excludedNodes : List String) (n : String) : Prop :=
  n = startId ∨ n = endId ∨ ¬ n ∈ excludedNodes

/-- Invariant of the Dijkstra loop state: every queued id passed the node
check, every recorded parent is a popped (hence queued) id, and every recorded
parent edge passed the edge-exclusion check. -/
structure SearchInv (startId endId : String) (excludedEdges excludedNodes : List String)
    (st : SearchState) : Prop where
  queue_ok : ∀ qe ∈ st.queue, nodeAllowed startId endId excludedNodes qe.id
  prev_ok : ∀ p ∈ st.previous, nodeAllowed startId endId excludedNodes p.2
  prevEdge_ok : ∀ p ∈ st.previousEdge, ¬ p.2 ∈ excludedEdges


/-- The adjacency list of a node id, empty when the node is absent. -/
def neighborsOf (g : Graph) (n : String) : List (String × Neighbor) :=
  match mget g n with
  | some node => node.neighbors
  | none => []

/-- A certificate that every route from `s` is separated from anything outside
`cut` once the exclusions are applied: `cut` is closed under taking neighbors
that pass the edge- and node-exclusion checks of `dijkstra`.  A forward-closed
set containing `s` but not `t` exists exactly when every route from `s` to `t`
is excluded. -/
def cutClosed (g : Graph) (s t : String) (eE eN cut : List String) : Prop :=
  ∀ n ∈ cut, ∀ entry ∈ neighborsOf g n,
    eE.contains entry.2.edgeId = false →
    (entry.1 = s ∨ entry.1 = t ∨ eN.contains entry.1 = false) → entry.1 ∈ cut


/-- Statement helper: the adjacency entry from `n1` to `n2`, when present. -/
def entryAt (g : Graph) (n1 n2 : String) : Option Neighbor :=
  (mget g n1).bind (fun node => mget node.neighbors n2)

/-- Statement helper: is there an adjacency entry from `n1` to `n2`? -/
def hasEntry (g : Graph) (n1 n2 : String) : Bool :=
  (entryAt g n1 n2).isSome

/-- Convenience constructor for straight test edges. -/
def mkEdge (i f t : String) (c : ℚ) (bd : Option Bool) : EdgeData :=
  { id := i, fromId := f, toId := t, cost := c, bidirectional := bd,
    type := "line", controlPoints := [] }

/-- The three-node example of the spec: A-B cost 2, B-C cost 3, A-C cost 10. -/
def exWaypointsABC : List WaypointData :=
  [⟨"A", 0, 0⟩, ⟨"B", 1, 0⟩, ⟨"C", 2, 0⟩]

/-- The three bidirectional example edges of the spec. -/
def exEdgesABC : List EdgeData :=
  [mkEdge "eAB" "A" "B" 2 none, mkEdge "eBC" "B" "C" 3 none,
    mkEdge "eAC" "A" "C" 10 none]

/-- The spec example graph. -/
def exGraphABC : Graph :=
  buildGraph Rat.sqrt exWaypointsABC exEdgesABC

/-- The spec example plus an isolated waypoint D (disconnected target). -/
def exWaypointsABCD : List WaypointData :=
  exWaypointsABC ++ [⟨"D", 3, 0⟩]

/-- The spec example graph plus the isolated node D. -/
def exGraphABCD : Graph :=
  buildGraph Rat.sqrt exWaypointsABCD exEdgesABC

/-- Four-node graph on which the spliced-candidate cost of Yen's algorithm
drops the edge into the spur node: A-B 1, B-D 5, B-C 1, C-D 1, A-C 10. -/
def exEdgesYen : List EdgeData :=
  [mkEdge "e1" "A" "B" 1 none, mkEdge "e2" "B" "D" 5 none,
    mkEdge "e3" "B" "C" 1 none, mkEdge "e4" "C" "D" 1 none,
    mkEdge "e5" "A" "C" 10 none]

/-- The four-node Yen counterexample graph. -/
def exGraphYen : Graph :=
  buildGraph Rat.sqrt [⟨"A", 0, 0⟩, ⟨"B", 1, 0⟩, ⟨"C", 2, 0⟩, ⟨"D", 3, 0⟩] exEdgesYen

/-- Directed five-node graph on which the reported costs of
`findKShortestPaths` come out in non-monotone order. -/
def exEdgesMono : List EdgeData :=
  [mkEdge "e0" "S" "T" 10 (some false), mkEdge "e1" "S" "A" 100 (some false),
    mkEdge "e2" "A" "T" 1 (some false), mkEdge "e3" "S" "B" 200 (some false),
    mkEdge "e4" "B" "T" 1 (some false), mkEdge "e5" "A" "C" 1 (some false),
    mkEdge "e6" "C" "T" 1 (some false)]

/-- The five-node monotonicity counterexample graph. -/
def exGraphMono : Graph :=
  buildGraph Rat.sqrt
    [⟨"S", 0, 0⟩, ⟨"A", 1, 0⟩, ⟨"B", 2, 0⟩, ⟨"C", 3, 0⟩, ⟨"T", 4, 0⟩] exEdgesMono

/-- Two waypoints three pixels apart, for builder and terrain witnesses. -/
def exWaypointsPair : List WaypointData :=
  [⟨"P", 0, 0⟩, ⟨"Q", 3, 0⟩]

/-- A directed test edge. -/
def exDirectedEdge : EdgeData :=
  mkEdge "d1" "P" "Q" 7 (some false)

/-- A curved test edge whose control points keep the curve on the segment, so
its arc length equals its straight length. -/
def exBezierEdge : EdgeData :=
  { id := "b1", fromId := "P", toId := "Q", cost := 2, bidirectional := none,
    type := "bezier", controlPoints := [⟨1, 0⟩, ⟨2, 0⟩] }

/-- A 123-pixel straight edge (distance-only cost 1.23 before rounding). -/
def exWp123A : WaypointData := ⟨"P", 0, 0⟩

/-- Far endpoint of the 123-pixel edge. -/
def exWp123B : WaypointData := ⟨"R", 123, 0⟩

/-- An empty 3×3 terrain layer. -/
def exTerrain3 : TerrainLayer :=
  { gridWidth := 3, gridHeight := 3,
    grid := [none, none, none, none, none, none, none, none, none], types := [] }

/-- An adjacency entry from `n1` to `n2` is justified by the edge list when
some edge contributes exactly it: same id, the effective cost, and matching
orientation (forward always, reverse only for a bidirectional edge). -/
def entryJustified (sqrtF : ℚ → ℚ) (waypointMap : List (String × WaypointData))
    (es : List EdgeData) (n1 n2 : String) (nb : Neighbor) : Prop :=
  ∃ e ∈ es, nb.edgeId = e.id ∧ nb.cost = effectiveEdgeCost sqrtF waypointMap e ∧
    ((e.fromId = n1 ∧ e.toId = n2) ∨
      (e.bidirectional ≠ some false ∧ e.toId = n1 ∧ e.fromId = n2))

/-- Statement helper for the paint brush: offset (dx, dy) from the brush
center lands (after JS rounding) on the in-bounds cell whose row-major index
is `i`. -/
def paintHit (cx cy rsq : ℚ) (w h : ℤ) (dx dy : ℚ) (i : ℕ) : Prop :=
  dx * dx + dy * dy ≤ rsq ∧
    0 ≤ jsRound (cx + dx) ∧ jsRound (cx + dx) < w ∧
    0 ≤ jsRound (cy + dy) ∧ jsRound (cy + dy) < h ∧
    i = (jsRound (cy + dy) * w + jsRound (cx + dx)).toNat

instance (cx cy rsq : ℚ) (w h : ℤ) (dx dy : ℚ) (i : ℕ) :
    Decidable (paintHit cx cy rsq w h dx dy i) := by
  unfold paintHit
  infer_instance

/-! ## Generic lemmas about the JS `Map` model, sorting and folds -/

theorem mget_mset {α : Type} (m : List (String × α)) (k key : String) (v : α) :
    mget (mset m k v) key = if k = key then some v else mget m key := by
  induction m with
  | nil => simp [mget, mset]
  | cons p rest ih =>
    obtain ⟨k1, v1⟩ := p
    by_cases h1 : k1 = k
    · subst h1
      by_cases h2 : k1 = key <;> simp [mget, mset, h2]
    · by_cases h2 : k1 = key
      · subst h2
        have hne : k ≠ k1 := fun h => h1 h.symm
        simp [mget, mset, h1, hne]
      · simp [mget, mset, h1, h2, ih]

theorem mem_mset {α : Type} {m : List (String × α)} {k : String} {v : α}
    {p : String × α} (h : p ∈ mset m k v) : p = (k, v) ∨ p ∈ m := by
  induction m with
  | nil => simpa [mset] using h
  | cons q rest ih =>
    obtain ⟨k1, v1⟩ := q
    by_cases h1 : k1 = k
    · subst h1
      rcases (by simpa [mset] using h : p = (k1, v) ∨ p ∈ rest) with h2 | h2
      · exact Or.inl h2
      · exact Or.inr (List.mem_cons_of_mem _ h2)
    · rcases (by simpa [mset, h1] using h : p = (k1, v1) ∨ p ∈ mset rest k v) with h2 | h2
      · exact Or.inr (by simp [h2])
      · rcases ih h2 with h3 | h3
        · exact Or.inl h3
        · exact Or.inr (List.mem_cons_of_mem _ h3)

theorem mget_mem {α : Type} {m : List (String × α)} {k : String} {v : α}
    (h : mget m k = some v) : (k, v) ∈ m := by
  induction m with
  | nil => simp [mget] at h
  | cons q rest ih =>
    obtain ⟨k1, v1⟩ := q
    by_cases h1 : k1 = k
    · subst h1
      simp [mget] at h
      simp [h]
    · simp [mget, h1] at h
      exact List.mem_cons_of_mem _ (ih h)

theorem foldl_preserve {α β : Type} (P : β → Prop) (f : β → α → β) :
    ∀ (l : List α) (b : β), P b → (∀ x ∈ l, ∀ y, P y → P (f y x)) → P (l.foldl f b)
  | [], b, hb, _ => hb
  | x :: xs, b, hb, hstep =>
    foldl_preserve P f xs (f b x) (hstep x (by simp) b hb)
      (fun z hz y hy => hstep z (List.mem_cons_of_mem _ hz) y hy)

theorem mem_insertByCost {x y : QueueEntry} :
    ∀ {l : List QueueEntry}, y ∈ insertByCost x l → y = x ∨ y ∈ l := by
  intro l
  induction l with
  | nil => simpa [insertByCost] using fun h => Or.inl h
  | cons z zs ih =>
    by_cases h : x.cost ≤ z.cost
    · intro hm
      rcases (by simpa [insertByCost, h] using hm : y = x ∨ y = z ∨ y ∈ zs) with h1 | h1
      · exact Or.inl h1
      · exact Or.inr (by simpa using h1)
    · intro hm
      rcases (by simpa [insertByCost, h] using hm : y = z ∨ y ∈ insertByCost x zs) with h1 | h1
      · exact Or.inr (by simp [h1])
      · rcases ih h1 with h2 | h2
        · exact Or.inl h2
        · exact Or.inr (List.mem_cons_of_mem _ h2)

theorem mem_sortByCost {y : QueueEntry} :
    ∀ {l : List QueueEntry}, y ∈ sortByCost l → y ∈ l := by
  intro l
  induction l with
  | nil => simp [sortByCost]
  | cons z zs ih =>
    intro hm
    rcases mem_insertByCost (by simpa [sortByCost] using hm) with h1 | h1
    · simp [h1]
    · exact List.mem_cons_of_mem _ (ih h1)

theorem contains_eq_mem (l : List String) (a : String) : l.contains a = true ↔ a ∈ l :=
  List.elem_iff

/-! ## Dijkstra invariants: exclusion respecting and certified unreachability -/

theorem relaxStep_inv {s t : String} {eE eN : List String} {cur : QueueEntry}
    (hcur : nodeAllowed s t eN cur.id) {st : SearchState}
    (h : SearchInv s t eE eN st) (entry : String × Neighbor) :
    SearchInv s t eE eN (relaxStep eE eN s t cur st entry) := by
  simp only [relaxStep]
  split
  · exact h
  · rename_i hedge
    split
    · exact h
    · rename_i hnode
      split
      · exact h
      · split
        · refine ⟨?_, ?_, ?_⟩
          · intro qe hqe
            rcases List.mem_append.mp hqe with hq | hq
            · exact h.queue_ok qe hq
            · have hqe2 : qe = ⟨entry.1, cur.cost + entry.2.cost⟩ := by simpa using hq
              subst hqe2
              by_cases h1 : entry.1 = s
              · exact Or.inl h1
              by_cases h2 : entry.1 = t
              · exact Or.inr (Or.inl h2)
              refine Or.inr (Or.inr fun hmem => ?_)
              exact hnode ⟨h1, h2, (contains_eq_mem _ _).mpr hmem⟩
          · intro p hp
            rcases mem_mset hp with h1 | h1
            · rw [h1]
              exact hcur
            · exact h.prev_ok p h1
          · intro p hp
            rcases mem_mset hp with h1 | h1
            · rw [h1]
              intro hmem
              exact hedge ((contains_eq_mem _ _).mpr hmem)
            · exact h.prevEdge_ok p h1
        · exact h

theorem reconstructCore_sub (prev prevE : List (String × String)) :
    ∀ (fuel : ℕ) (cur : String),
      (∀ n ∈ (reconstructCore prev prevE fuel cur).1, n = cur ∨ ∃ k, (k, n) ∈ prev) ∧
      (∀ e ∈ (reconstructCore prev prevE fuel cur).2, ∃ k, (k, e) ∈ prevE) := by
  intro fuel
  induction fuel with
  | zero => intro cur; simp [reconstructCore]
  | succ n ih =>
    intro cur
    constructor
    · intro m hm
      simp only [reconstructCore] at hm
      cases hp : mget prev cur with
      | none =>
        rw [hp] at hm
        simp at hm
        exact Or.inl hm
      | some parent =>
        rw [hp] at hm
        rcases List.mem_append.mp hm with h1 | h1
        · rcases (ih parent).1 m h1 with h2 | h2
          · exact Or.inr ⟨cur, h2 ▸ mget_mem hp⟩
          · exact Or.inr h2
        · exact Or.inl (by simpa using h1)
    · intro e he
      simp only [reconstructCore] at he
      cases hp : mget prev cur with
      | none =>
        rw [hp] at he
        cases hq : mget prevE cur with
        | none =>
          rw [hq] at he
          simp at he
        | some e1 =>
          rw [hq] at he
          by_cases h0 : e1 = ""
          · simp [h0] at he
          · simp [h0] at he
            exact ⟨cur, he ▸ mget_mem hq⟩
      | some parent =>
        rw [hp] at he
        cases hq : mget prevE cur with
        | none =>
          rw [hq] at he
          exact (ih parent).2 e he
        | some e1 =>
          rw [hq] at he
          by_cases h0 : e1 = ""
          · simp [h0] at he
            exact (ih parent).2 e he
          · simp [h0] at he
            rcases he with h1 | h1
            · exact (ih parent).2 e h1
            · exact ⟨cur, h1 ▸ mget_mem hq⟩

theorem dijkstraLoop_some_ok {g : Graph} {s t : String} {eE eN : List String} :
    ∀ (fuel : ℕ) (st : SearchState), SearchInv s t eE eN st →
      ∀ p, dijkstraLoop g s t eE eN fuel st = some p →
        (∀ e ∈ p.edges, ¬ e ∈ eE) ∧ (∀ n ∈ p.path, nodeAllowed s t eN n) := by
  intro fuel
  induction fuel with
  | zero => intro st hinv p hp; simp [dijkstraLoop] at hp
  | succ n ih =>
    intro st hinv p hp
    rw [dijkstraLoop] at hp
    split at hp
    · simp at hp
    · rename_i current rest heq
      have hcurmem : current ∈ st.queue := mem_sortByCost (heq ▸ List.mem_cons_self _ _)
      have hcur : nodeAllowed s t eN current.id := hinv.queue_ok current hcurmem
      have hrest : ∀ qe ∈ rest, qe ∈ st.queue := fun qe hqe =>
        mem_sortByCost (heq ▸ List.mem_cons_of_mem _ hqe)
      split at hp
      · exact ih { st with queue := rest }
          ⟨fun qe hqe => hinv.queue_ok qe (hrest qe hqe),
            hinv.prev_ok, hinv.prevEdge_ok⟩ p hp
      · split at hp
        · rename_i hend
          have hp2 : reconstructPath st.previous st.previousEdge s t
              ((mget st.costs t).getD 0) = p := by
            simpa [hend] using hp
          subst hp2
          constructor
          · intro e he
            obtain ⟨k, hk⟩ :=
              (reconstructCore_sub st.previous st.previousEdge _ _).2 e he
            exact hinv.prevEdge_ok (k, e) hk
          · intro m hm
            rcases (reconstructCore_sub st.previous st.previousEdge _ _).1 m hm with
              h1 | ⟨k, hk⟩
            · rw [h1]
              exact Or.inr (Or.inl rfl)
            · exact hinv.prev_ok (k, m) hk
        · split at hp
          · exact ih { st with queue := rest, visited := st.visited ++ [current.id] }
              ⟨fun qe hqe => hinv.queue_ok qe (hrest qe hqe),
                hinv.prev_ok, hinv.prevEdge_ok⟩ p hp
          · rename_i node hnode
            refine ih _ ?_ p hp
            refine foldl_preserve (SearchInv s t eE eN) _ node.neighbors
              { st with queue := rest, visited := st.visited ++ [current.id] }
              ⟨fun qe hqe => hinv.queue_ok qe (hrest qe hqe),
                hinv.prev_ok, hinv.prevEdge_ok⟩ ?_
            intro x hx y hy
            exact relaxStep_inv hcur hy x

theorem relaxStep_cut {g : Graph} {s t : String} {eE eN cut : List String}
    {cur : QueueEntry} {node : GraphNode}
    (hclosed : cutClosed g s t eE eN cut)
    (hcur : cur.id ∈ cut) (hnode : mget g cur.id = some node)
    {st : SearchState} (hq : ∀ qe ∈ st.queue, qe.id ∈ cut)
    {entry : String × Neighbor} (hentry : entry ∈ node.neighbors) :
    ∀ qe ∈ (relaxStep eE eN s t cur st entry).queue, qe.id ∈ cut := by
  simp only [relaxStep]
  split
  · exact hq
  · rename_i hedge
    split
    · exact hq
    · rename_i hnodechk
      split
      · exact hq
      · split
        · intro qe hqe
          rcases List.mem_append.mp hqe with h1 | h1
          · exact hq qe h1
          · have hqe2 : qe = ⟨entry.1, cur.cost + entry.2.cost⟩ := by simpa using h1
            subst hqe2
            refine hclosed cur.id hcur entry ?_ ?_ ?_
            · simpa [neighborsOf, hnode] using hentry
            · cases h3 : eE.contains entry.2.edgeId
              · rfl
              · exact absurd h3 hedge
            · by_cases h1 : entry.1 = s
              · exact Or.inl h1
              by_cases h2 : entry.1 = t
              · exact Or.inr (Or.inl h2)
              refine Or.inr (Or.inr ?_)
              cases h3 : eN.contains entry.1
              · rfl
              · exact absurd ⟨h1, h2, h3⟩ hnodechk
        · exact hq

theorem dijkstraLoop_none_of_cut {g : Graph} {s t : String} {eE eN cut : List String}
    (hclosed : cutClosed g s t eE eN cut) (ht : ¬ t ∈ cut) :
    ∀ (fuel : ℕ) (st : SearchState), (∀ qe ∈ st.queue, qe.id ∈ cut) →
      dijkstraLoop g s t eE eN fuel st = none := by
  intro fuel
  induction fuel with
  | zero => intro st hq; simp [dijkstraLoop]
  | succ n ih =>
    intro st hq
    rw [dijkstraLoop]
    split
    · rfl
    · rename_i current rest heq
      have hcurmem : current ∈ st.queue := mem_sortByCost (heq ▸ List.mem_cons_self _ _)
      have hcur : current.id ∈ cut := hq current hcurmem
      have hrest : ∀ qe ∈ rest, qe.id ∈ cut := fun qe hqe =>
        hq qe (mem_sortByCost (heq ▸ List.mem_cons_of_mem _ hqe))
      split
      · exact ih _ hrest
      · split
        · rename_i hend
          exact absurd (hend ▸ hcur) ht
        · split
          · exact ih _ hrest
          · rename_i node hnode
            refine ih _ ?_
            refine foldl_preserve (fun st1 : SearchState => ∀ qe ∈ st1.queue, qe.id ∈ cut)
              _ node.neighbors
              { st with queue := rest, visited := st.visited ++ [current.id] } hrest ?_
            intro x hx y hy
            exact relaxStep_cut hclosed hcur hnode hy hx

theorem dijkstra_some_ok {g : Graph} {s t : String} {eE eN : List String} {p : PathResult}
    (hp : dijkstra g s t eE eN = some p) :
    (∀ e ∈ p.edges, ¬ e ∈ eE) ∧ (∀ n ∈ p.path, nodeAllowed s t eN n) := by
  refine dijkstraLoop_some_ok (graphFuel g) _ ⟨?_, ?_, ?_⟩ p hp
  · intro qe hqe
    have h1 : qe = ⟨s, 0⟩ := by simpa using hqe
    rw [h1]
    exact Or.inl rfl
  · intro q hq
    simp at hq
  · intro q hq
    simp at hq

theorem dijkstra_none_of_cut {g : Graph} {s t : String} {eE eN cut : List String}
    (hclosed : cutClosed g s t eE eN cut) (hs : s ∈ cut) (ht : ¬ t ∈ cut) :
    dijkstra g s t eE eN = none := by
  refine dijkstraLoop_none_of_cut hclosed ht (graphFuel g) _ ?_
  intro qe hqe
  have h1 : qe = ⟨s, 0⟩ := by simpa using hqe
  rw [h1]
  exact hs

theorem dijkstraLoop_self (g : Graph) (s : String) (eE eN : List String) (m : ℕ) :
    dijkstraLoop g s s eE eN (m + 1)
      { queue := [⟨s, 0⟩], costs := [(s, 0)], previous := [],
        previousEdge := [], visited := [] } = some ⟨[s], 0, []⟩ := by
  rw [dijkstraLoop]
  simp [sortByCost, insertByCost, reconstructPath, reconstructCore, mget]

/-! ## Graph builder lemmas -/

theorem isSome_mget_mset {α : Type} {m : List (String × α)} {k : String} {v : α}
    (hk : (mget m k).isSome = true) (key : String) :
    (mget (mset m k v) key).isSome = (mget m key).isSome := by
  rw [mget_mset]
  by_cases h : k = key
  · subst h
    simp [hk]
  · simp [h]

theorem inventory_update {P : String → String → Neighbor → Prop} {g : Graph}
    (hg : ∀ n1 n2 nb, entryAt g n1 n2 = some nb → P n1 n2 nb)
    {key kn : String} {node0 : GraphNode} (hnode : mget g key = some node0)
    {nb1 : Neighbor} (hnew : P key kn nb1) :
    ∀ n1 n2 nb,
      entryAt (mset g key { node0 with neighbors := mset node0.neighbors kn nb1 }) n1 n2 =
        some nb → P n1 n2 nb := by
  intro n1 n2 nb h
  unfold entryAt at h
  rw [mget_mset] at h
  by_cases h1 : key = n1
  · subst h1
    rw [if_pos rfl, Option.some_bind] at h
    rw [mget_mset] at h
    by_cases h2 : kn = n2
    · subst h2
      rw [if_pos rfl] at h
      cases h
      exact hnew
    · rw [if_neg h2] at h
      refine hg key n2 nb ?_
      unfold entryAt
      rw [hnode, Option.some_bind]
      exact h
  · rw [if_neg h1] at h
    exact hg n1 n2 nb h

theorem hasEntry_update_mono {g : Graph} {key kn : String} {node0 : GraphNode} {v : Neighbor}
    (hnode : mget g key = some node0) {n1 n2 : String}
    (h : hasEntry g n1 n2 = true) :
    hasEntry (mset g key { node0 with neighbors := mset node0.neighbors kn v }) n1 n2 = true := by
  unfold hasEntry entryAt at h ⊢
  rw [mget_mset]
  by_cases h1 : key = n1
  · subst h1
    rw [hnode, Option.some_bind] at h
    rw [if_pos rfl, Option.some_bind, mget_mset]
    by_cases h2 : kn = n2
    · simp [h2]
    · rw [if_neg h2]
      exact h
  · rw [if_neg h1]
    exact h

theorem hasEntry_addEdge_mono {sqrtF : ℚ → ℚ} {wm : List (String × WaypointData)}
    {g : Graph} {e : EdgeData} {n1 n2 : String}
    (h : hasEntry g n1 n2 = true) :
    hasEntry (addEdgeToGraph sqrtF wm g e) n1 n2 = true := by
  unfold addEdgeToGraph
  cases hf : mget g e.fromId with
  | none => simpa [hf] using h
  | some fromNode =>
    cases ht : mget g e.toId with
    | none => simpa [hf, ht] using h
    | some toNode0 =>
      simp only
      split
      · rename_i hbd
        cases hto1 : mget (mset g e.fromId
            { fromNode with
              neighbors := mset fromNode.neighbors e.toId
                ⟨effectiveEdgeCost sqrtF wm e, e.id⟩ }) e.toId with
        | none => exact hasEntry_update_mono hf h
        | some toNode1 => exact hasEntry_update_mono hto1 (hasEntry_update_mono hf h)
      · exact hasEntry_update_mono hf h

theorem addEdge_isSome {sqrtF : ℚ → ℚ} {wm : List (String × WaypointData)}
    {g : Graph} {e : EdgeData} (k : String) :
    (mget (addEdgeToGraph sqrtF wm g e) k).isSome = (mget g k).isSome := by
  unfold addEdgeToGraph
  cases hf : mget g e.fromId with
  | none => simp
  | some fromNode =>
    cases ht : mget g e.toId with
    | none => simp
    | some toNode0 =>
      simp only
      have hf1 : (mget g e.fromId).isSome = true := by simp [hf]
      split
      · rename_i hbd
        cases hto1 : mget (mset g e.fromId
            { fromNode with
              neighbors := mset fromNode.neighbors e.toId
                ⟨effectiveEdgeCost sqrtF wm e, e.id⟩ }) e.toId with
        | none => exact isSome_mget_mset hf1 k
        | some toNode1 =>
          rw [isSome_mget_mset (by simp [hto1]) k]
          exact isSome_mget_mset hf1 k
      · exact isSome_mget_mset hf1 k

theorem addEdge_creates (sqrtF : ℚ → ℚ) (wm : List (String × WaypointData))
    {g : Graph} {e : EdgeData}
    (hf : (mget g e.fromId).isSome = true) (ht : (mget g e.toId).isSome = true) :
    hasEntry (addEdgeToGraph sqrtF wm g e) e.fromId e.toId = true ∧
      (e.bidirectional ≠ some false →
        hasEntry (addEdgeToGraph sqrtF wm g e) e.toId e.fromId = true) := by
  obtain ⟨fromNode, hf1⟩ := Option.isSome_iff_exists.mp hf
  obtain ⟨toNode0, ht1⟩ := Option.isSome_iff_exists.mp ht
  have hfwd : hasEntry (mset g e.fromId
      { fromNode with
        neighbors := mset fromNode.neighbors e.toId
          ⟨effectiveEdgeCost sqrtF wm e, e.id⟩ }) e.fromId e.toId = true := by
    unfold hasEntry entryAt
    rw [mget_mset, if_pos rfl, Option.some_bind, mget_mset, if_pos rfl]
    rfl
  unfold addEdgeToGraph
  rw [hf1, ht1]
  simp only
  split
  · rename_i hbd
    cases hto1 : mget (mset g e.fromId
        { fromNode with
          neighbors := mset fromNode.neighbors e.toId
            ⟨effectiveEdgeCost sqrtF wm e, e.id⟩ }) e.toId with
    | none =>
      have : (mget (mset g e.fromId
          { fromNode with
            neighbors := mset fromNode.neighbors e.toId
              ⟨effectiveEdgeCost sqrtF wm e, e.id⟩ }) e.toId).isSome = true := by
        rw [isSome_mget_mset (by simp [hf1])]
        simp [ht1]
      rw [hto1] at this
      simp at this
    | some toNode1 =>
      constructor
      · exact hasEntry_update_mono hto1 hfwd
      · intro _
        unfold hasEntry entryAt
        rw [mget_mset, if_pos rfl, Option.some_bind, mget_mset, if_pos rfl]
        rfl
  · rename_i hbd
    refine ⟨hfwd, fun hbd2 => absurd hbd2 hbd⟩

theorem addEdge_inventory {sqrtF : ℚ → ℚ} {wm : List (String × WaypointData)}
    {es : List EdgeData} {e : EdgeData} (he : e ∈ es) {g : Graph}
    (hg : ∀ n1 n2 nb, entryAt g n1 n2 = some nb → entryJustified sqrtF wm es n1 n2 nb) :
    ∀ n1 n2 nb, entryAt (addEdgeToGraph sqrtF wm g e) n1 n2 = some nb →
      entryJustified sqrtF wm es n1 n2 nb := by
  unfold addEdgeToGraph
  cases hf : mget g e.fromId with
  | none => exact hg
  | some fromNode =>
    cases ht : mget g e.toId with
    | none => exact hg
    | some toNode0 =>
      simp only
      have hnew1 : entryJustified sqrtF wm es e.fromId e.toId
          ⟨effectiveEdgeCost sqrtF wm e, e.id⟩ :=
        ⟨e, he, rfl, rfl, Or.inl ⟨rfl, rfl⟩⟩
      have hg1 := inventory_update hg hf hnew1
      split
      · rename_i hbd
        cases hto1 : mget (mset g e.fromId
            { fromNode with
              neighbors := mset fromNode.neighbors e.toId
                ⟨effectiveEdgeCost sqrtF wm e, e.id⟩ }) e.toId with
        | none => exact hg1
        | some toNode1 =>
          have hnew2 : entryJustified sqrtF wm es e.toId e.fromId
              ⟨effectiveEdgeCost sqrtF wm e, e.id⟩ :=
            ⟨e, he, rfl, rfl, Or.inr ⟨hbd, rfl, rfl⟩⟩
          exact inventory_update hg1 hto1 hnew2
      · exact hg1

theorem mget_wp_fold (wps : List WaypointData) :
    ∀ (init : Graph) (k : String),
      (mget (wps.foldl (fun g wp => mset g wp.id ⟨wp.id, []⟩) init) k).isSome = true ↔
        k ∈ wps.map WaypointData.id ∨ (mget init k).isSome = true := by
  induction wps with
  | nil => intro init k; simp
  | cons wp rest ih =>
    intro init k
    rw [List.foldl_cons, ih]
    by_cases h : wp.id = k
    · have h2 : k = wp.id := h.symm
      constructor
      · intro _
        exact Or.inl (by simp [h2])
      · intro _
        refine Or.inr ?_
        rw [mget_mset, if_pos h]
        rfl
    · have h2 : ¬ k = wp.id := fun hh => h hh.symm
      simp only [mget_mset, if_neg h, List.map_cons, List.mem_cons]
      tauto

theorem g0_neighbors_nil (wps : List WaypointData) :
    ∀ (init : Graph), (∀ k node, mget init k = some node → node.neighbors = []) →
      ∀ k node, mget (wps.foldl (fun g wp => mset g wp.id ⟨wp.id, []⟩) init) k = some node →
        node.neighbors = [] := by
  induction wps with
  | nil => intro init h; exact h
  | cons wp rest ih =>
    intro init h
    rw [List.foldl_cons]
    refine ih _ ?_
    intro k node hk
    rw [mget_mset] at hk
    by_cases h1 : wp.id = k
    · rw [if_pos h1] at hk
      cases hk
      rfl
    · rw [if_neg h1] at hk
      exact h k node hk

theorem buildGraph_inventory (sqrtF : ℚ → ℚ) (wps : List WaypointData)
    (es : List EdgeData) :
    ∀ n1 n2 nb, entryAt (buildGraph sqrtF wps es) n1 n2 = some nb →
      entryJustified sqrtF (waypointMapOf wps) es n1 n2 nb := by
  simp only [buildGraph]
  refine foldl_preserve
    (fun g : Graph => ∀ n1 n2 nb, entryAt g n1 n2 = some nb →
      entryJustified sqrtF (waypointMapOf wps) es n1 n2 nb) _ es _ ?_ ?_
  · intro n1 n2 nb h
    unfold entryAt at h
    cases hn : mget (wps.foldl
        (fun g wp => mset g wp.id ({ id := wp.id, neighbors := [] } : GraphNode)) []) n1 with
    | none =>
      rw [hn] at h
      simp at h
    | some node =>
      rw [hn, Option.some_bind] at h
      have hnil : node.neighbors = [] :=
        g0_neighbors_nil wps [] (by intro k nd hk; simp [mget] at hk) n1 node hn
      rw [hnil] at h
      simp [mget] at h
  · intro e he g hg
    exact addEdge_inventory he hg

theorem buildGraph_hasEntry (sqrtF : ℚ → ℚ) (wps : List WaypointData)
    (es : List EdgeData) {e : EdgeData} (he : e ∈ es)
    (hf : e.fromId ∈ wps.map WaypointData.id) (ht : e.toId ∈ wps.map WaypointData.id) :
    hasEntry (buildGraph sqrtF wps es) e.fromId e.toId = true ∧
      (e.bidirectional ≠ some false →
        hasEntry (buildGraph sqrtF wps es) e.toId e.fromId = true) := by
  simp only [buildGraph]
  obtain ⟨l1, l2, rfl⟩ := List.append_of_mem he
  rw [List.foldl_append, List.foldl_cons]
  have hkeys : (mget (List.foldl (addEdgeToGraph sqrtF (waypointMapOf wps))
        (wps.foldl (fun g wp => mset g wp.id ⟨wp.id, []⟩) []) l1) e.fromId).isSome = true ∧
      (mget (List.foldl (addEdgeToGraph sqrtF (waypointMapOf wps))
        (wps.foldl (fun g wp => mset g wp.id ⟨wp.id, []⟩) []) l1) e.toId).isSome = true := by
    refine foldl_preserve
      (fun g : Graph => (mget g e.fromId).isSome = true ∧ (mget g e.toId).isSome = true)
      _ l1 _ ?_ ?_
    · constructor
      · rw [mget_wp_fold]
        exact Or.inl hf
      · rw [mget_wp_fold]
        exact Or.inl ht
    · intro x hx y hy
      rw [addEdge_isSome, addEdge_isSome]
      exact hy
  have hcreate := addEdge_creates sqrtF (waypointMapOf wps) hkeys.1 hkeys.2
  constructor
  · refine foldl_preserve (fun g : Graph => hasEntry g e.fromId e.toId = true)
      _ l2 _ hcreate.1 ?_
    intro x hx y hy
    exact hasEntry_addEdge_mono hy
  · intro hbd
    refine foldl_preserve (fun g : Graph => hasEntry g e.toId e.fromId = true)
      _ l2 _ (hcreate.2 hbd) ?_
    intro x hx y hy
    exact hasEntry_addEdge_mono hy

theorem effectiveEdgeCost_of_bezier {sqrtF : ℚ → ℚ} {wm : List (String × WaypointData)}
    {e : EdgeData} {fromWp toWp : WaypointData} {c0 c1 : Point} {rest : List Point}
    (hf : mget wm e.fromId = some fromWp) (ht : mget wm e.toId = some toWp)
    (htype : e.type = "bezier") (hcp : e.controlPoints = c0 :: c1 :: rest) :
    effectiveEdgeCost sqrtF wm e =
      e.cost * (getBezierLength sqrtF ⟨fromWp.x, fromWp.y⟩ c0 c1 ⟨toWp.x, toWp.y⟩ 50 /
        (if sqrtF ((toWp.x - fromWp.x) ^ 2 + (toWp.y - fromWp.y) ^ 2) = 0 then 1
         else sqrtF ((toWp.x - fromWp.x) ^ 2 + (toWp.y - fromWp.y) ^ 2))) := by
  unfold effectiveEdgeCost
  rw [if_pos ⟨htype, by rw [hcp]; simp⟩]
  simp only [hf, ht, hcp]

theorem effectiveEdgeCost_of_straight {sqrtF : ℚ → ℚ} {wm : List (String × WaypointData)}
    {e : EdgeData} (h : ¬ (e.type = "bezier" ∧ 2 ≤ e.controlPoints.length)) :
    effectiveEdgeCost sqrtF wm e = e.cost := by
  unfold effectiveEdgeCost
  rw [if_neg h]

/-- C6: for every waypoint list and connection list, the built graph reflects
directionality: a connection whose endpoint ids resolve to waypoints always
contributes the forward from→to adjacency entry, contributes the reverse
to→from entry when it is not explicitly marked `bidirectional: false` (absence
of the flag defaults to bidirectional), and every adjacency entry of the built
graph is justified by some connection in matching orientation — so a directed
connection never produces a reverse entry of its own. -/
theorem buildGraph_directionality (sqrtF : ℚ → ℚ) (wps : List WaypointData)
    (es : List EdgeData) (e : EdgeData) (he : e ∈ es)
    (hf : e.fromId ∈ wps.map WaypointData.id) (ht : e.toId ∈ wps.map WaypointData.id) :
    hasEntry (buildGraph sqrtF wps es) e.fromId e.toId = true ∧
      (e.bidirectional ≠ some false →
        hasEntry (buildGraph sqrtF wps es) e.toId e.fromId = true) ∧
      (∀ n1 n2 nb, entryAt (buildGraph sqrtF wps es) n1 n2 = some nb →
        ∃ e2 ∈ es, nb.edgeId = e2.id ∧
          ((e2.fromId = n1 ∧ e2.toId = n2) ∨
            (e2.bidirectional ≠ some false ∧ e2.toId = n1 ∧ e2.fromId = n2))) := by
  obtain ⟨h1, h2⟩ := buildGraph_hasEntry sqrtF wps es he hf ht
  refine ⟨h1, h2, ?_⟩
  intro n1 n2 nb hnb
  obtain ⟨e2, he2, hid, _, hor⟩ := buildGraph_inventory sqrtF wps es n1 n2 nb hnb
  exact ⟨e2, he2, hid, hor⟩

/-- Witness for C6 at a concrete input: a single directed edge P→Q yields the
forward entry (via the theorem) and, by direct evaluation, no reverse entry. -/
theorem buildGraph_directionality_witness :
    hasEntry (buildGraph Rat.sqrt exWaypointsPair [exDirectedEdge]) "P" "Q" = true ∧
      hasEntry (buildGraph Rat.sqrt exWaypointsPair [exDirectedEdge]) "Q" "P" = false := by
  constructor
  · exact (buildGraph_directionality Rat.sqrt exWaypointsPair [exDirectedEdge]
      exDirectedEdge (by simp) (by simp [exWaypointsPair, exDirectedEdge, mkEdge])
      (by simp [exWaypointsPair, exDirectedEdge, mkEdge])).1
  · with_unfolding_all rfl

/-- C7: every adjacency entry cost produced by `buildGraph` is the effective
cost of the edge that created it; for a curved connection with resolvable
endpoints that cost is the stored cost times (50-segment polyline Bézier arc
length ÷ straight-line endpoint distance), with divisor 1 when the straight
distance is zero; a straight connection's effective cost is its stored cost. -/
theorem buildGraph_curved_cost (sqrtF : ℚ → ℚ) (wps : List WaypointData)
    (es : List EdgeData) :
    (∀ n1 n2 nb, entryAt (buildGraph sqrtF wps es) n1 n2 = some nb →
      ∃ e ∈ es, nb.cost = effectiveEdgeCost sqrtF (waypointMapOf wps) e ∧ nb.edgeId = e.id) ∧
    (∀ (e : EdgeData) (fromWp toWp : WaypointData) (c0 c1 : Point) (rest : List Point),
      mget (waypointMapOf wps) e.fromId = some fromWp →
      mget (waypointMapOf wps) e.toId = some toWp →
      e.type = "bezier" → e.controlPoints = c0 :: c1 :: rest →
      effectiveEdgeCost sqrtF (waypointMapOf wps) e =
        e.cost * (getBezierLength sqrtF ⟨fromWp.x, fromWp.y⟩ c0 c1 ⟨toWp.x, toWp.y⟩ 50 /
          (if sqrtF ((toWp.x - fromWp.x) ^ 2 + (toWp.y - fromWp.y) ^ 2) = 0 then 1
           else sqrtF ((toWp.x - fromWp.x) ^ 2 + (toWp.y - fromWp.y) ^ 2)))) ∧
    (∀ e : EdgeData, ¬ (e.type = "bezier" ∧ 2 ≤ e.controlPoints.length) →
      effectiveEdgeCost sqrtF (waypointMapOf wps) e = e.cost) := by
  refine ⟨?_, ?_, ?_⟩
  · intro n1 n2 nb hnb
    obtain ⟨e2, he2, hid, hcost, _⟩ := buildGraph_inventory sqrtF wps es n1 n2 nb hnb
    exact ⟨e2, he2, hcost, hid⟩
  · intro e fromWp toWp c0 c1 rest hf ht htype hcp
    exact effectiveEdgeCost_of_bezier hf ht htype hcp
  · intro e h
    exact effectiveEdgeCost_of_straight h

/-- Witness for C7 at a concrete input: the curved edge P→Q with collinear
control points has arc length 3 and straight distance 3, so its effective
cost is the stored cost 2 times ratio 1. -/
theorem buildGraph_curved_cost_witness :
    effectiveEdgeCost Rat.sqrt (waypointMapOf exWaypointsPair) exBezierEdge =
      2 * (getBezierLength Rat.sqrt ⟨0, 0⟩ ⟨1, 0⟩ ⟨2, 0⟩ ⟨3, 0⟩ 50 / 3) := by
  have h := (buildGraph_curved_cost Rat.sqrt exWaypointsPair [exBezierEdge]).2.1
    exBezierEdge ⟨"P", 0, 0⟩ ⟨"Q", 3, 0⟩ ⟨1, 0⟩ ⟨2, 0⟩ []
    (by with_unfolding_all rfl) (by with_unfolding_all rfl) rfl rfl
  rw [h]
  have h9 : (((3 : ℚ) - 0) ^ 2 + ((0 : ℚ) - 0) ^ 2) = 9 := by norm_num
  rw [h9]
  have hs : Rat.sqrt 9 = 3 := by with_unfolding_all rfl
  rw [hs, if_neg (by norm_num)]
  rfl

/-- C3: on the concrete spec example graph (A-B cost 2, B-C cost 3, A-C cost
10, all bidirectional), Dijkstra from A to C returns exactly the node sequence
[A, B, C] with total cost 5 and the connection ids [eAB, eBC]. -/
theorem dijkstra_spec_example :
    dijkstra exGraphABC "A" "C" [] [] =
      some ⟨["A", "B", "C"], 5, ["eAB", "eBC"]⟩ := by
  with_unfolding_all rfl

/-- C9: for every graph and every exclusion sets, dijkstra with source equal
to target s returns the result with path [s], cost 0 and no edges — even when
s is not a node of the graph — rather than the no-path result. -/
theorem dijkstra_source_eq_target (g : Graph) (s : String) (eE eN : List String) :
    dijkstra g s s eE eN = some ⟨[s], 0, []⟩ := by
  have h2 : graphFuel g = (graphFuel g - 1) + 1 := by
    unfold graphFuel
    omega
  unfold dijkstra
  rw [h2]
  exact dijkstraLoop_self g s eE eN _

/-- C4: a path returned by dijkstra never traverses an excluded connection
and never visits a node in the excluded-node set other than the source or the
target themselves; and whenever a forward-closed node set separates the
source from the target under the exclusions (every route excluded), the
result is the no-path `none` rather than a path using an excluded
connection. -/
theorem dijkstra_respects_exclusions (g : Graph) (s t : String) (eE eN : List String) :
    (∀ p, dijkstra g s t eE eN = some p →
      (∀ e ∈ p.edges, ¬ e ∈ eE) ∧ (∀ n ∈ p.path, n = s ∨ n = t ∨ ¬ n ∈ eN)) ∧
    (∀ cut : List String, cutClosed g s t eE eN cut → s ∈ cut → ¬ t ∈ cut →
      dijkstra g s t eE eN = none) := by
  constructor
  · intro p hp
    exact dijkstra_some_ok hp
  · intro cut hclosed hs ht
    exact dijkstra_none_of_cut hclosed hs ht

/-- Witness for C4: with every connection of the spec example graph excluded,
the search reports no path (certified by the closed cut {A}). -/
theorem dijkstra_respects_exclusions_witness :
    dijkstra exGraphABC "A" "C" ["eAB", "eBC", "eAC"] [] = none :=
  (dijkstra_respects_exclusions exGraphABC "A" "C" ["eAB", "eBC", "eAC"] []).2
    ["A"] (by unfold cutClosed neighborsOf; decide) (by decide) (by decide)

/-- C5: dijkstra returns the no-path result `none` — it is a total function,
so it never throws — whenever a forward-closed set of node ids contains the
source but not the target, the certificate form of "no route exists", which
covers a disconnected target and unknown source or target ids alike. -/
theorem dijkstra_unreachable_none (g : Graph) (s t : String) (eE eN cut : List String)
    (hclosed : cutClosed g s t eE eN cut) (hs : s ∈ cut) (ht : ¬ t ∈ cut) :
    dijkstra g s t eE eN = none :=
  dijkstra_none_of_cut hclosed hs ht

/-- Witness for C5: the isolated node D is unreachable, and an unknown target
id Z yields the same no-path result. -/
theorem dijkstra_unreachable_none_witness :
    dijkstra exGraphABCD "A" "D" [] [] = none ∧
      dijkstra exGraphABC "A" "Z" [] [] = none :=
  ⟨dijkstra_unreachable_none exGraphABCD "A" "D" [] [] ["A", "B", "C"]
      (by unfold cutClosed neighborsOf; decide) (by decide) (by decide),
    dijkstra_unreachable_none exGraphABC "A" "Z" [] [] ["A", "B", "C"]
      (by unfold cutClosed neighborsOf; decide) (by decide) (by decide)⟩

set_option maxHeartbeats 1000000 in
/-- C1 (failing-input evaluation): on the four-node graph A-B 1, B-D 5, B-C 1,
C-D 1, A-C 10 with k = 2, the second returned result is the spliced path
[A, B, D] with reported cost 5, while the costs of the connections it
traverses (e1, e2) sum to 6 — the spliced cost drops the edge into the spur
node, because `calculatePathCost` is applied to the root prefix with its last
node removed. -/
theorem yen_cost_drops_spur_edge :
    findKShortestPaths exGraphYen "A" "D" 2 =
      [⟨["A", "B", "C", "D"], 3, ["e1", "e3", "e4"]⟩,
        ⟨["A", "B", "D"], 5, ["e1", "e2"]⟩] ∧
      calculatePathCost exGraphYen ["A", "B", "D"] = 6 := by
  constructor
  · with_unfolding_all rfl
  · with_unfolding_all rfl

set_option maxHeartbeats 1000000 in
/-- C2 (failing-input evaluation): on the directed five-node graph with k = 3,
the reported costs come out as [10, 101, 2]: the list is not non-decreasing,
since the cost at index 1 (101) exceeds the cost at index 2 (2). -/
theorem yen_costs_not_monotone :
    (findKShortestPaths exGraphMono "S" "T" 3).map PathResult.cost = [10, 101, 2] ∧
      ¬ ((findKShortestPaths exGraphMono "S" "T" 3).map PathResult.cost).Pairwise (· ≤ ·) := by
  have h : (findKShortestPaths exGraphMono "S" "T" 3).map PathResult.cost = [10, 101, 2] := by
    with_unfolding_all rfl
  refine ⟨h, ?_⟩
  rw [h]
  intro hp
  have h2 := (List.pairwise_cons.mp (List.pairwise_cons.mp hp).2).1 2 (by simp)
  norm_num at h2

/-- C8: `calculateEdgeTerrainCost` always returns an integer multiple of 0.1;
with no terrain it returns the straight-line pixel distance divided by 100 and
rounded to one decimal (`Math.round(v * 10) / 10`), and with terrain it
returns the path terrain cost of the edge's sampled shape (30 Bézier samples
for a curved edge, else 20 line samples) rounded to one decimal. -/
theorem edge_cost_rounded (sqrtF : ℚ → ℚ) (edge : EdgeData) (fromWp toWp : WaypointData)
    (terrain : Option TerrainLayer) (iw ih : ℚ) :
    (∃ z : ℤ, calculateEdgeTerrainCost sqrtF edge fromWp toWp terrain iw ih = (z : ℚ) / 10) ∧
    (terrain = none →
      calculateEdgeTerrainCost sqrtF edge fromWp toWp terrain iw ih =
        (jsRound (sqrtF ((toWp.x - fromWp.x) ^ 2 + (toWp.y - fromWp.y) ^ 2) / 100 * 10) : ℚ)
          / 10) ∧
    (∀ terr, terrain = some terr →
      calculateEdgeTerrainCost sqrtF edge fromWp toWp terrain iw ih =
        (jsRound (calculatePathTerrainCost sqrtF terr
          (if edge.type = "bezier" ∧ 2 ≤ edge.controlPoints.length then
            match edge.controlPoints with
            | c0 :: c1 :: _ => sampleBezier ⟨fromWp.x, fromWp.y⟩ c0 c1 ⟨toWp.x, toWp.y⟩ 30
            | _ => sampleLine fromWp.x fromWp.y toWp.x toWp.y 20
          else sampleLine fromWp.x fromWp.y toWp.x toWp.y 20) iw ih * 10) : ℚ) / 10) := by
  refine ⟨?_, ?_, ?_⟩
  · cases terrain with
    | none => exact ⟨_, rfl⟩
    | some terr => exact ⟨_, rfl⟩
  · intro h
    subst h
    rfl
  · intro terr h
    subst h
    rfl

/-- Witness for C8: a distance-only edge of exactly 123 px resolves to cost
1.2 (not 1.23). -/
theorem edge_cost_rounded_witness :
    calculateEdgeTerrainCost Rat.sqrt exDirectedEdge exWp123A exWp123B none 1000 1000 =
      6 / 5 := by
  have h := (edge_cost_rounded Rat.sqrt exDirectedEdge exWp123A exWp123B none 1000 1000).2.1 rfl
  rw [h]
  have harg : (exWp123B.x - exWp123A.x) ^ 2 + (exWp123B.y - exWp123A.y) ^ 2 = 15129 := by
    norm_num [exWp123A, exWp123B]
  rw [harg]
  have hs : Rat.sqrt 15129 = 123 := by
    unfold Rat.sqrt
    norm_num
  rw [hs]
  have hdiv : (123 : ℚ) / 100 * 10 = 123 / 10 := by norm_num
  rw [hdiv]
  have hround : jsRound ((123 : ℚ) / 10) = 12 := by
    unfold jsRound
    refine Int.floor_eq_iff.mpr ⟨by norm_num, by norm_num⟩
  rw [hround]
  norm_num

/-! ## Terrain paint lemmas -/

theorem jsRound_intCast (m : ℤ) : jsRound ((m : ℚ)) = m := by
  unfold jsRound
  refine Int.floor_eq_iff.mpr ⟨?_, ?_⟩
  · push_cast
    linarith
  · push_cast
    linarith

theorem abs_bounds_of_sq_le_sq {a b : ℤ} (hb : 0 ≤ b) (h : a ^ 2 ≤ b ^ 2) :
    -b ≤ a ∧ a ≤ b := by
  constructor <;> nlinarith

theorem rowmajor_inj {w x1 y1 x2 y2 : ℤ} (hx1 : 0 ≤ x1) (hx1w : x1 < w)
    (hx2 : 0 ≤ x2) (hx2w : x2 < w) (h : y1 * w + x1 = y2 * w + x2) :
    x1 = x2 ∧ y1 = y2 := by
  have hw : 0 < w := lt_of_le_of_lt hx1 hx1w
  have hd : (y1 - y2) * w = x2 - x1 := by ring_nf; linarith
  have hy : y1 = y2 := by
    rcases lt_trichotomy y1 y2 with hlt | heq | hgt
    · exfalso
      have h1 : y1 - y2 ≤ -1 := by omega
      have h2 : (y1 - y2) * w ≤ -1 * w := by
        exact mul_le_mul_of_nonneg_right h1 (le_of_lt hw)
      rw [neg_one_mul] at h2
      linarith
    · exact heq
    · exfalso
      have h1 : 1 ≤ y1 - y2 := by omega
      have h2 : 1 * w ≤ (y1 - y2) * w := by
        exact mul_le_mul_of_nonneg_right h1 (le_of_lt hw)
      rw [one_mul] at h2
      linarith
  subst hy
  refine ⟨by linarith, rfl⟩

theorem paintInner_preserve (cx cy rsq : ℚ) (tid : Option String) (dy : ℚ)
    (ty : List TerrainType) (w h : ℤ) (L : ℕ) (dxs : List ℚ) (t2 : TerrainLayer)
    (hbase : t2.gridWidth = w ∧ t2.gridHeight = h ∧ t2.types = ty ∧ t2.grid.length = L) :
    (dxs.foldl
        (fun t3 dx =>
          if dx * dx + dy * dy ≤ rsq then
            let cellX := jsRound (cx + dx)
            let cellY := jsRound (cy + dy)
            if 0 ≤ cellX ∧ cellX < t3.gridWidth ∧ 0 ≤ cellY ∧ cellY < t3.gridHeight then
              { t3 with grid := t3.grid.set (cellY * t3.gridWidth + cellX).toNat tid }
            else t3
          else t3) t2).gridWidth = w ∧
      (dxs.foldl
        (fun t3 dx =>
          if dx * dx + dy * dy ≤ rsq then
            let cellX := jsRound (cx + dx)
            let cellY := jsRound (cy + dy)
            if 0 ≤ cellX ∧ cellX < t3.gridWidth ∧ 0 ≤ cellY ∧ cellY < t3.gridHeight then
              { t3 with grid := t3.grid.set (cellY * t3.gridWidth + cellX).toNat tid }
            else t3
          else t3) t2).gridHeight = h ∧
      (dxs.foldl
        (fun t3 dx =>
          if dx * dx + dy * dy ≤ rsq then
            let cellX := jsRound (cx + dx)
            let cellY := jsRound (cy + dy)
            if 0 ≤ cellX ∧ cellX < t3.gridWidth ∧ 0 ≤ cellY ∧ cellY < t3.gridHeight then
              { t3 with grid := t3.grid.set (cellY * t3.gridWidth + cellX).toNat tid }
            else t3
          else t3) t2).types = ty ∧
      (dxs.foldl
        (fun t3 dx =>
          if dx * dx + dy * dy ≤ rsq then
            let cellX := jsRound (cx + dx)
            let cellY := jsRound (cy + dy)
            if 0 ≤ cellX ∧ cellX < t3.gridWidth ∧ 0 ≤ cellY ∧ cellY < t3.gridHeight then
              { t3 with grid := t3.grid.set (cellY * t3.gridWidth + cellX).toNat tid }
            else t3
          else t3) t2).grid.length = L := by
  refine foldl_preserve
    (fun t3 : TerrainLayer =>
      t3.gridWidth = w ∧ t3.gridHeight = h ∧ t3.types = ty ∧ t3.grid.length = L)
    _ dxs t2 hbase ?_
  intro dx hdx t3 ht3
  by_cases h1 : dx * dx + dy * dy ≤ rsq
  · by_cases h2 : 0 ≤ jsRound (cx + dx) ∧ jsRound (cx + dx) < t3.gridWidth ∧
        0 ≤ jsRound (cy + dy) ∧ jsRound (cy + dy) < t3.gridHeight
    · simp only [if_pos h1, if_pos h2]
      exact ⟨ht3.1, ht3.2.1, ht3.2.2.1, by rw [List.length_set]; exact ht3.2.2.2⟩
    · simp only [if_pos h1, if_neg h2]
      exact ht3
  · simp only [if_neg h1]
    exact ht3

theorem paintInner_get (cx cy rsq : ℚ) (tid : Option String) (w h : ℤ) (dy : ℚ) :
    ∀ (dxs : List ℚ) (t2 : TerrainLayer), t2.gridWidth = w → t2.gridHeight = h →
      t2.grid.length = (w * h).toNat → ∀ i : ℕ,
      (dxs.foldl
          (fun t3 dx =>
            if dx * dx + dy * dy ≤ rsq then
              let cellX := jsRound (cx + dx)
              let cellY := jsRound (cy + dy)
              if 0 ≤ cellX ∧ cellX < t3.gridWidth ∧ 0 ≤ cellY ∧ cellY < t3.gridHeight then
                { t3 with grid := t3.grid.set (cellY * t3.gridWidth + cellX).toNat tid }
              else t3
            else t3) t2).grid[i]? =
        (if ∃ dx ∈ dxs, paintHit cx cy rsq w h dx dy i then some tid
         else t2.grid[i]?) := by
  intro dxs
  induction dxs with
  | nil =>
    intro t2 hw hh hlen i
    simp
  | cons dx dxs ih =>
    intro t2 hw hh hlen i
    rw [List.foldl_cons]
    simp only [List.mem_cons, exists_eq_or_imp]
    by_cases h1 : dx * dx + dy * dy ≤ rsq
    · by_cases h2 : 0 ≤ jsRound (cx + dx) ∧ jsRound (cx + dx) < t2.gridWidth ∧
          0 ≤ jsRound (cy + dy) ∧ jsRound (cy + dy) < t2.gridHeight
      · simp only [if_pos h1, if_pos h2]
        rw [ih { t2 with
            grid := t2.grid.set
              (jsRound (cy + dy) * t2.gridWidth + jsRound (cx + dx)).toNat tid }
          hw hh (by rw [List.length_set]; exact hlen) i]
        have hb2 : 0 ≤ jsRound (cx + dx) ∧ jsRound (cx + dx) < w ∧
            0 ≤ jsRound (cy + dy) ∧ jsRound (cy + dy) < h := by
          rw [← hw, ← hh]
          exact h2
        have hwpos : 0 < w := lt_of_le_of_lt hb2.1 hb2.2.1
        have hhpos : 0 < h := lt_of_le_of_lt hb2.2.2.1 hb2.2.2.2
        have hnn : 0 ≤ jsRound (cy + dy) * w + jsRound (cx + dx) :=
          add_nonneg (mul_nonneg hb2.2.2.1 (le_of_lt hwpos)) hb2.1
        have hlt : jsRound (cy + dy) * w + jsRound (cx + dx) < w * h := by
          nlinarith [hb2.2.1, hb2.2.2.2, hb2.1, hb2.2.2.1]
        have hlenlt : (jsRound (cy + dy) * w + jsRound (cx + dx)).toNat < t2.grid.length := by
          rw [hlen]
          have hwh : 0 < w * h := mul_pos hwpos hhpos
          exact (Int.toNat_lt_toNat hwh).mpr hlt
        by_cases hex : ∃ d ∈ dxs, paintHit cx cy rsq w h d dy i
        · rw [if_pos hex, if_pos (Or.inr hex)]
        · rw [if_neg hex]
          by_cases heq : (jsRound (cy + dy) * t2.gridWidth + jsRound (cx + dx)).toNat = i
          · have hHit : paintHit cx cy rsq w h dx dy i := by
              refine ⟨h1, hb2.1, hb2.2.1, hb2.2.2.1, hb2.2.2.2, ?_⟩
              rw [hw] at heq
              exact heq.symm
            rw [if_pos (Or.inl hHit)]
            show (t2.grid.set
              (jsRound (cy + dy) * t2.gridWidth + jsRound (cx + dx)).toNat tid)[i]? = some tid
            rw [List.getElem?_set, if_pos heq]
            rw [if_pos (show (jsRound (cy + dy) * t2.gridWidth +
                jsRound (cx + dx)).toNat < t2.grid.length by rw [hw]; exact hlenlt)]
          · have hnone : ¬ (paintHit cx cy rsq w h dx dy i ∨
                ∃ d ∈ dxs, paintHit cx cy rsq w h d dy i) := by
              rintro (hH | hH)
              · exact heq (by rw [hw]; exact hH.2.2.2.2.2.symm)
              · exact hex hH
            rw [if_neg hnone]
            show (t2.grid.set
              (jsRound (cy + dy) * t2.gridWidth + jsRound (cx + dx)).toNat tid)[i]? =
              t2.grid[i]?
            rw [List.getElem?_set, if_neg heq]
      · simp only [if_pos h1, if_neg h2]
        rw [ih t2 hw hh hlen i]
        have hnd : ¬ paintHit cx cy rsq w h dx dy i := by
          intro hH
          exact h2 (by rw [hw, hh]; exact ⟨hH.2.1, hH.2.2.1, hH.2.2.2.1, hH.2.2.2.2.1⟩)
        by_cases hex : ∃ d ∈ dxs, paintHit cx cy rsq w h d dy i
        · rw [if_pos hex, if_pos (Or.inr hex)]
        · rw [if_neg hex, if_neg (by rintro (hH | hH) <;> [exact hnd hH; exact hex hH])]
    · simp only [if_neg h1]
      rw [ih t2 hw hh hlen i]
      have hnd : ¬ paintHit cx cy rsq w h dx dy i := fun hH => h1 hH.1
      by_cases hex : ∃ d ∈ dxs, paintHit cx cy rsq w h d dy i
      · rw [if_pos hex, if_pos (Or.inr hex)]
      · rw [if_neg hex, if_neg (by rintro (hH | hH) <;> [exact hnd hH; exact hex hH])]

theorem paintOuter_get (cx cy rsq : ℚ) (tid : Option String) (w h : ℤ) (offs : List ℚ) :
    ∀ (dys : List ℚ) (t1 : TerrainLayer), t1.gridWidth = w → t1.gridHeight = h →
      t1.grid.length = (w * h).toNat → ∀ i : ℕ,
      (dys.foldl
          (fun t2 dy =>
            offs.foldl
              (fun t3 dx =>
                if dx * dx + dy * dy ≤ rsq then
                  let cellX := jsRound (cx + dx)
                  let cellY := jsRound (cy + dy)
                  if 0 ≤ cellX ∧ cellX < t3.gridWidth ∧ 0 ≤ cellY ∧ cellY < t3.gridHeight then
                    { t3 with grid := t3.grid.set (cellY * t3.gridWidth + cellX).toNat tid }
                  else t3
                else t3)
              t2) t1).grid[i]? =
        (if ∃ dy ∈ dys, ∃ dx ∈ offs, paintHit cx cy rsq w h dx dy i then some tid
         else t1.grid[i]?) := by
  intro dys
  induction dys with
  | nil =>
    intro t1 hw hh hlen i
    simp
  | cons dy dys ih =>
    intro t1 hw hh hlen i
    rw [List.foldl_cons]
    simp only [List.mem_cons, exists_eq_or_imp]
    have hpres := paintInner_preserve cx cy rsq tid dy t1.types w h ((w * h).toNat)
      offs t1 ⟨hw, hh, rfl, hlen⟩
    rw [ih _ hpres.1 hpres.2.1 hpres.2.2.2 i]
    rw [paintInner_get cx cy rsq tid w h dy offs t1 hw hh hlen i]
    by_cases hex : ∃ d ∈ dys, ∃ dx ∈ offs, paintHit cx cy rsq w h dx d i
    · rw [if_pos hex, if_pos (Or.inr hex)]
    · rw [if_neg hex]
      by_cases hhd : ∃ dx ∈ offs, paintHit cx cy rsq w h dx dy i
      · rw [if_pos hhd, if_pos (Or.inl hhd)]
      · rw [if_neg hhd, if_neg (by rintro (hH | hH) <;> [exact hhd hH; exact hex hH])]

theorem paintTerrain_char (t : TerrainLayer) (cx cy radius : ℚ) (tid : Option String)
    (hlen : t.grid.length = (t.gridWidth * t.gridHeight).toNat) :
    (paintTerrain t cx cy radius tid).gridWidth = t.gridWidth ∧
    (paintTerrain t cx cy radius tid).gridHeight = t.gridHeight ∧
    (paintTerrain t cx cy radius tid).types = t.types ∧
    (paintTerrain t cx cy radius tid).grid.length = t.grid.length ∧
    ∀ i : ℕ, (paintTerrain t cx cy radius tid).grid[i]? =
      (if ∃ dy ∈ loopOffsets radius, ∃ dx ∈ loopOffsets radius,
          paintHit cx cy (radius * radius) t.gridWidth t.gridHeight dx dy i
       then some tid else t.grid[i]?) := by
  unfold paintTerrain
  have hpres := foldl_preserve
    (fun t1 : TerrainLayer => t1.gridWidth = t.gridWidth ∧ t1.gridHeight = t.gridHeight ∧
      t1.types = t.types ∧ t1.grid.length = (t.gridWidth * t.gridHeight).toNat)
    (fun t2 dy =>
      (loopOffsets radius).foldl
        (fun t3 dx =>
          if dx * dx + dy * dy ≤ radius * radius then
            let cellX := jsRound (cx + dx)
            let cellY := jsRound (cy + dy)
            if 0 ≤ cellX ∧ cellX < t3.gridWidth ∧ 0 ≤ cellY ∧ cellY < t3.gridHeight then
              { t3 with grid := t3.grid.set (cellY * t3.gridWidth + cellX).toNat tid }
            else t3
          else t3)
        t2)
    (loopOffsets radius) t ⟨rfl, rfl, rfl, hlen⟩ ?_
  · refine ⟨hpres.1, hpres.2.1, hpres.2.2.1, by rw [hpres.2.2.2, hlen], ?_⟩
    intro i
    exact paintOuter_get cx cy (radius * radius) tid t.gridWidth t.gridHeight
      (loopOffsets radius) (loopOffsets radius) t rfl rfl hlen i
  · intro dy hdy t1 ht1
    have h2 := paintInner_preserve cx cy (radius * radius) tid dy t.types
      t.gridWidth t.gridHeight ((t.gridWidth * t.gridHeight).toNat)
      (loopOffsets radius) t1 ⟨ht1.1, ht1.2.1, ht1.2.2.1, ht1.2.2.2⟩
    exact ⟨h2.1, h2.2.1, h2.2.2.1, h2.2.2.2⟩

theorem floor_two_natCast (r : ℕ) : ⌊(2 : ℚ) * ((r : ℕ) : ℚ)⌋.toNat = 2 * r := by
  rw [show (2 : ℚ) * ((r : ℕ) : ℚ) = (((2 * r : ℕ)) : ℚ) by push_cast; ring]
  rw [Int.floor_natCast]
  omega

theorem mem_loopOffsets_intCast (r : ℕ) (d : ℤ) (h1 : -(r : ℤ) ≤ d) (h2 : d ≤ r) :
    ((d : ℚ)) ∈ loopOffsets ((r : ℕ) : ℚ) := by
  unfold loopOffsets
  rw [if_pos (by positivity)]
  refine List.mem_map.mpr ⟨(d + r).toNat, ?_, ?_⟩
  · rw [List.mem_range, floor_two_natCast]
    omega
  · have hnn : (0 : ℤ) ≤ d + r := by omega
    have h3 : (((d + (r : ℤ)).toNat : ℕ) : ℤ) = d + r := Int.toNat_of_nonneg hnn
    have hcast : (((d + (r : ℤ)).toNat : ℕ) : ℚ) = ((d : ℚ) + (r : ℚ)) := by
      calc (((d + (r : ℤ)).toNat : ℕ) : ℚ)
          = ((((d + (r : ℤ)).toNat : ℕ) : ℤ) : ℚ) := by push_cast; ring
        _ = (((d + (r : ℤ)) : ℤ) : ℚ) := by rw [h3]
        _ = (d : ℚ) + (r : ℚ) := by push_cast; ring
    rw [hcast]
    ring

theorem loopOffsets_intCast_form (r : ℕ) (q : ℚ) (hq : q ∈ loopOffsets ((r : ℕ) : ℚ)) :
    ∃ d : ℤ, q = (d : ℚ) ∧ -(r : ℤ) ≤ d ∧ d ≤ r := by
  unfold loopOffsets at hq
  rw [if_pos (by positivity)] at hq
  obtain ⟨k, hk, rfl⟩ := List.mem_map.mp hq
  rw [List.mem_range, floor_two_natCast] at hk
  refine ⟨(k : ℤ) - r, ?_, by omega, by omega⟩
  push_cast
  ring

/-- C10: painting a terrain layer with an integer brush center (cx, cy),
radius r and a type id returns a layer with the same gridWidth, gridHeight
and types in which exactly the in-bounds cells (cx+dx, cy+dy) with
dx² + dy² ≤ r² hold the type id and every other cell keeps its previous
value; the update is functional — the embedding is pure, so the input layer
itself is untouched and only the returned copy differs. -/
theorem paintTerrain_disc (t : TerrainLayer) (cx cy : ℤ) (r : ℕ) (tid : Option String)
    (hlen : t.grid.length = (t.gridWidth * t.gridHeight).toNat) :
    (paintTerrain t (cx : ℚ) (cy : ℚ) ((r : ℕ) : ℚ) tid).gridWidth = t.gridWidth ∧
    (paintTerrain t (cx : ℚ) (cy : ℚ) ((r : ℕ) : ℚ) tid).gridHeight = t.gridHeight ∧
    (paintTerrain t (cx : ℚ) (cy : ℚ) ((r : ℕ) : ℚ) tid).types = t.types ∧
    (paintTerrain t (cx : ℚ) (cy : ℚ) ((r : ℕ) : ℚ) tid).grid.length = t.grid.length ∧
    ∀ x y : ℤ, 0 ≤ x → x < t.gridWidth → 0 ≤ y → y < t.gridHeight →
      (paintTerrain t (cx : ℚ) (cy : ℚ) ((r : ℕ) : ℚ) tid).grid[(y * t.gridWidth + x).toNat]? =
        (if (x - cx) ^ 2 + (y - cy) ^ 2 ≤ (r : ℤ) ^ 2 then some tid
         else t.grid[(y * t.gridWidth + x).toNat]?) := by
  obtain ⟨hW, hH, hT, hL, hget⟩ :=
    paintTerrain_char t (cx : ℚ) (cy : ℚ) ((r : ℕ) : ℚ) tid hlen
  refine ⟨hW, hH, hT, hL, ?_⟩
  intro x y hx0 hxw hy0 hyh
  rw [hget ((y * t.gridWidth + x).toNat)]
  have hwpos : 0 < t.gridWidth := lt_of_le_of_lt hx0 hxw
  refine if_congr ?_ rfl rfl
  constructor
  · rintro ⟨dyq, hdy, dxq, hdx, hHit⟩
    obtain ⟨dzy, rfl, hy1, hy2⟩ := loopOffsets_intCast_form r dyq hdy
    obtain ⟨dzx, rfl, hx1, hx2⟩ := loopOffsets_intCast_form r dxq hdx
    have hrx : jsRound ((cx : ℚ) + (dzx : ℚ)) = cx + dzx := by
      rw [show ((cx : ℚ) + (dzx : ℚ)) = (((cx + dzx : ℤ)) : ℚ) by push_cast; ring]
      exact jsRound_intCast _
    have hry : jsRound ((cy : ℚ) + (dzy : ℚ)) = cy + dzy := by
      rw [show ((cy : ℚ) + (dzy : ℚ)) = (((cy + dzy : ℤ)) : ℚ) by push_cast; ring]
      exact jsRound_intCast _
    obtain ⟨hsq, hb1, hb2, hb3, hb4, hieq⟩ := hHit
    rw [hrx] at hb1 hb2
    rw [hry] at hb3 hb4
    rw [hrx, hry] at hieq
    have hnn1 : (0 : ℤ) ≤ y * t.gridWidth + x :=
      add_nonneg (mul_nonneg hy0 (le_of_lt hwpos)) hx0
    have hnn2 : (0 : ℤ) ≤ (cy + dzy) * t.gridWidth + (cx + dzx) :=
      add_nonneg (mul_nonneg hb3 (le_of_lt hwpos)) hb1
    have hint : y * t.gridWidth + x = (cy + dzy) * t.gridWidth + (cx + dzx) := by
      have h5 := congrArg (fun n : ℕ => (n : ℤ)) hieq
      simpa [Int.toNat_of_nonneg hnn1, Int.toNat_of_nonneg hnn2] using h5
    obtain ⟨hxe, hye⟩ := rowmajor_inj hx0 hxw hb1 hb2 hint
    have hdx2 : dzx = x - cx := by omega
    have hdy2 : dzy = y - cy := by omega
    subst hdx2
    subst hdy2
    rw [pow_two, pow_two, pow_two]
    exact_mod_cast hsq
  · intro hdisc
    have hxsq : (x - cx) ^ 2 ≤ ((r : ℕ) : ℤ) ^ 2 :=
      le_trans (le_add_of_nonneg_right (sq_nonneg (y - cy))) hdisc
    have hysq : (y - cy) ^ 2 ≤ ((r : ℕ) : ℤ) ^ 2 :=
      le_trans (le_add_of_nonneg_left (sq_nonneg (x - cx))) hdisc
    have hxb := abs_bounds_of_sq_le_sq (by positivity) hxsq
    have hyb := abs_bounds_of_sq_le_sq (by positivity) hysq
    have hrx : jsRound ((cx : ℚ) + ((x - cx : ℤ) : ℚ)) = x := by
      rw [show ((cx : ℚ) + ((x - cx : ℤ) : ℚ)) = ((x : ℤ) : ℚ) by push_cast; ring]
      exact jsRound_intCast _
    have hry : jsRound ((cy : ℚ) + ((y - cy : ℤ) : ℚ)) = y := by
      rw [show ((cy : ℚ) + ((y - cy : ℤ) : ℚ)) = ((y : ℤ) : ℚ) by push_cast; ring]
      exact jsRound_intCast _
    refine ⟨((y - cy : ℤ) : ℚ), mem_loopOffsets_intCast r _ hyb.1 hyb.2,
      ((x - cx : ℤ) : ℚ), mem_loopOffsets_intCast r _ hxb.1 hxb.2, ?_, ?_, ?_, ?_, ?_, ?_⟩
    · have hq : (x - cx) * (x - cx) + (y - cy) * (y - cy) ≤ ((r : ℕ) : ℤ) * ((r : ℕ) : ℤ) := by
        rw [← pow_two, ← pow_two, ← pow_two]
        exact hdisc
      exact_mod_cast hq
    · rw [hrx]
      exact hx0
    · rw [hrx]
      exact hxw
    · rw [hry]
      exact hy0
    · rw [hry]
      exact hyh
    · rw [hrx, hry]

/-- Witness for C10: painting the empty 3×3 layer at integer center (1, 1)
with radius 1 sets the center cell and leaves the corner cell unpainted. -/
theorem paintTerrain_disc_witness :
    (paintTerrain exTerrain3 ((1 : ℤ) : ℚ) ((1 : ℤ) : ℚ) ((1 : ℕ) : ℚ)
        (some "water")).grid[4]? = some (some "water") ∧
      (paintTerrain exTerrain3 ((1 : ℤ) : ℚ) ((1 : ℤ) : ℚ) ((1 : ℕ) : ℚ)
        (some "water")).grid[0]? = some none := by
  have h := paintTerrain_disc exTerrain3 1 1 1 (some "water") (by decide)
  constructor
  · have h2 := h.2.2.2.2 1 1 (by decide) (by decide) (by decide) (by decide)
    rw [if_pos (by decide)] at h2
    have hidx : (((1 : ℤ) * exTerrain3.gridWidth + (1 : ℤ))).toNat = 4 := by decide
    rw [hidx] at h2
    exact h2
  · have h2 := h.2.2.2.2 0 0 (by decide) (by decide) (by decide) (by decide)
    rw [if_neg (by decide)] at h2
    have hidx : (((0 : ℤ) * exTerrain3.gridWidth + (0 : ℤ))).toNat = 0 := by decide
    rw [hidx] at h2
    rw [h2]
    decide
